import Mathlib

/-!
Verification of the FineTuneMe repository: a shallow embedding of the
settings-storage layer, the upload-form validation, the progress display,
and (modelled from the spec where the backend pipeline is not in the
sources) the chunker, vision routing, orchestrator progress and the JSONL
formatter, together with proofs of the specified properties.
-/

/-! ## Settings storage (`lib/storage.ts`) -/

/-- The eight `STORAGE_KEYS` of `FineTuneMeStorage`:
`ftm_provider`, `ftm_api_key` (legacy Groq), `ftm_groq_api_key`,
`ftm_openai_api_key`, `ftm_anthropic_api_key`, `ftm_model`, `ftm_role`,
`ftm_format`. -/
inductive StorageKey where
  | provider
  | apiKey
  | groqApiKey
  | openaiApiKey
  | anthropicApiKey
  | model
  | role
  | format
deriving DecidableEq

/-- The browser `localStorage` as seen through the eight FineTuneMe keys:
each entry is `none` when the key was never written (JS `getItem` returns
`null`), and `avail` models `isAvailable()` (the probe write succeeding). -/
structure Store where
  avail : Bool
  provider : Option String
  apiKey : Option String
  groqApiKey : Option String
  openaiApiKey : Option String
  anthropicApiKey : Option String
  model : Option String
  roleV : Option String
  formatV : Option String
deriving DecidableEq

/-- The raw stored entry for a key (what `localStorage.getItem` returns). -/
def fieldVal (st : Store) : StorageKey → Option String
  | .provider => st.provider
  | .apiKey => st.apiKey
  | .groqApiKey => st.groqApiKey
  | .openaiApiKey => st.openaiApiKey
  | .anthropicApiKey => st.anthropicApiKey
  | .model => st.model
  | .role => st.roleV
  | .format => st.formatV

/-- The `DEFAULT_SETTINGS` of `lib/storage.ts`, per key. -/
def defaultSetting : StorageKey → String
  | .provider => "ollama"
  | .role => "teacher"
  | .format => "sharegpt"
  | _ => ""

/-- Method `FineTuneMeStorage.get`: the stored value when present, the default
otherwise (also when `localStorage` is unavailable). -/
def getKey (st : Store) (k : StorageKey) : String :=
  if st.avail then (fieldVal st k).getD (defaultSetting k)
  else defaultSetting k

/-- Method `FineTuneMeStorage.set`: writes the entry when `localStorage` is
available, and is a no-op otherwise. -/
def setKey (k : StorageKey) (v : String) (st : Store) : Store :=
  if st.avail then
    match k with
    | .provider => { st with provider := some v }
    | .apiKey => { st with apiKey := some v }
    | .groqApiKey => { st with groqApiKey := some v }
    | .openaiApiKey => { st with openaiApiKey := some v }
    | .anthropicApiKey => { st with anthropicApiKey := some v }
    | .model => { st with model := some v }
    | .role => { st with roleV := some v }
    | .format => { st with formatV := some v }
  else st

/-- Method `FineTuneMeStorage.clearSecrets`: sets the legacy key and the three
provider keys to the empty string, in source order. -/
def clearSecrets (st : Store) : Store :=
  setKey .anthropicApiKey ""
    (setKey .openaiApiKey ""
      (setKey .groqApiKey ""
        (setKey .apiKey "" st)))

/-! ## JSON values and `FineTuneMeStorage.setAll` / `import`

`import(json)` runs `JSON.parse` and hands the result to `setAll`; a parse
error is caught and reported as `false`.  The parsed value is modelled by
`Json`; numbers are modelled as integers (no claim depends on float
behaviour). -/

inductive Json where
  | jnull
  | jbool (b : Bool)
  | jnum (n : Int)
  | jstr (s : String)
  | jarr (xs : List Json)
  | jobj (fields : List (String × Json))

/-- JavaScript `String(v)` for a parsed JSON value, as `localStorage.setItem`
coerces non-string values.  Arrays join their elements with a comma (with
`null` elements rendered empty, as `Array.prototype.join` does), objects
render as the generic object tag. -/
def jsToString : Json → String
  | .jnull => "null"
  | .jbool true => "true"
  | .jbool false => "false"
  | .jnum n => toString n
  | .jstr s => s
  | .jarr xs => jsArrString xs
  | .jobj _ => "[object Object]"
where
  /-- Comma-joined rendering of an array's elements. -/
  jsArrString : List Json → String
    | [] => ""
    | [x] => jsElemString x
    | x :: y :: xs => jsElemString x ++ "," ++ jsArrString (y :: xs)
  /-- One array element: `null` renders empty inside a join. -/
  jsElemString : Json → String
    | .jnull => ""
    | v => jsToString v

/-- JavaScript property read `settings.name`: throws a `TypeError` on
`null` (modelled as `Except.error`), looks the field up on an object
(duplicate keys in a JSON text leave the last occurrence), and yields
`undefined` (`none`) on every other value. -/
def jsGet (j : Json) (name : String) : Except Unit (Option Json) :=
  match j with
  | .jnull => .error ()
  | .jobj fields => .ok ((fields.reverse.find? (fun kv => kv.1 = name)).map (·.2))
  | _ => .ok none

/-- One conditional line of `setAll`:
`if (settings.name !== undefined) this.set(KEY, settings.name)`. -/
def setField (j : Json) (name : String) (k : StorageKey) (st : Store) :
    Except Unit Store :=
  match jsGet j name with
  | .error e => .error e
  | .ok none => .ok st
  | .ok (some v) => .ok (setKey k (jsToString v) st)

/-- Method `FineTuneMeStorage.setAll` applied to a parsed JSON value, in source
order: provider, apiKey, groqApiKey, openaiApiKey, anthropicApiKey, model,
role, format. -/
def setAllJson (j : Json) (st : Store) : Except Unit Store := do
  let st ← setField j "provider" .provider st
  let st ← setField j "apiKey" .apiKey st
  let st ← setField j "groqApiKey" .groqApiKey st
  let st ← setField j "openaiApiKey" .openaiApiKey st
  let st ← setField j "anthropicApiKey" .anthropicApiKey st
  let st ← setField j "model" .model st
  let st ← setField j "role" .role st
  let st ← setField j "format" .format st
  return st

/-- Method `FineTuneMeStorage.import`: `none` is a `JSON.parse` failure (the
input string was not valid JSON); `some j` is a successful parse.  Any
exception inside the `try` block — from the parse or from `setAll` — is
caught and reported as `false` with the store untouched. -/
def importSettings (parsed : Option Json) (st : Store) : Bool × Store :=
  match parsed with
  | none => (false, st)
  | some j =>
    match setAllJson j st with
    | .ok st2 => (true, st2)
    | .error _ => (false, st)

/-! ## JavaScript `String.replace` with a string pattern

Used by the model auto-migration in `FileUpload.tsx`: it replaces the
first occurrence of the pattern and leaves the string unchanged when the
pattern does not occur (the replacement here contains no `$` directives). -/

/-- Strips `lit` from the front of `s`: `some rest` exactly when
`s = lit ++ rest`. -/
def stripL : List Char → List Char → Option (List Char)
  | [], s => some s
  | _ :: _, [] => none
  | c :: lit, d :: s => if c = d then stripL lit s else none

/-- Splits `s` at the first occurrence of `pat`:
`some (pre, post)` means `s = pre ++ pat ++ post` with the occurrence the
leftmost one; `none` means `pat` does not occur in `s`. -/
def firstSplit (pat : List Char) : List Char → Option (List Char × List Char)
  | [] => match stripL pat [] with
    | some rest => some ([], rest)
    | none => none
  | c :: s =>
    match stripL pat (c :: s) with
    | some rest => some ([], rest)
    | none =>
      match firstSplit pat s with
      | some (pre, post) => some (c :: pre, post)
      | none => none

/-- JavaScript `s.replace(pat, repl)` with a plain string pattern: the
first occurrence of `pat` is replaced by `repl`; without an occurrence the
string is returned unchanged. -/
def jsReplace (s pat repl : String) : String :=
  match firstSplit pat.toList s.toList with
  | some (pre, post) => (pre ++ repl.toList ++ post).asString
  | none => s

/-! ## The saved-model auto-migration (`FileUpload.tsx`, saved-settings load)

The mount effect reads the saved settings; when a saved model exists it
replaces `llama-3.1-70b-versatile` by `llama-3.3-70b-versatile`, persists
the migrated name when it differs, and installs it as the component's
model state (initially the empty string). -/

def deprecatedModel : String := "llama-3.1-70b-versatile"

def successorModel : String := "llama-3.3-70b-versatile"

/-- The saved-settings-load effect restricted to the model field: returns
the updated storage and the resulting `model` React state. -/
def modelMigration (st : Store) : Store × String :=
  let saved := getKey st .model
  if saved = "" then (st, "")
  else
    let migrated := jsReplace saved deprecatedModel successorModel
    if migrated ≠ saved then (setKey .model migrated st, migrated)
    else (st, saved)

/-! ## Upload validation (`FileUpload.tsx`) -/

/-- The `SUPPORTED_FILE_TYPES` array: the accepted-extension array of the upload
form.  The source joins it with commas for the file input's `accept`
attribute and splits the joined string back inside `handleFileChange`;
the round trip is the identity because no extension contains a comma, so
the list itself is the supported set. -/
def SUPPORTED_FILE_TYPES : List String := [
  ".pdf", ".docx", ".xlsx", ".xls", ".csv",
  ".html", ".htm", ".xml", ".txt", ".md", ".markdown",
  ".py", ".js", ".ts", ".jsx", ".tsx", ".java", ".c", ".cpp", ".cs",
  ".go", ".rs", ".php", ".rb", ".sql", ".json", ".yaml", ".yml",
  ".pptx", ".ppt", ".doc",
  ".png", ".jpg", ".jpeg", ".webp"]

/-- The split `SUPPORTED_FILE_TYPES.split(',')` as recomputed in `handleFileChange`. -/
def supportedExtensions : List String := SUPPORTED_FILE_TYPES

/-- JavaScript `String.split` with a single-character separator: splits
into the (possibly empty) groups between separators, and yields `[""]` on
the empty string. -/
def splitOnChar (sep : Char) : List Char → List (List Char)
  | [] => [[]]
  | c :: rest =>
    if c = sep then [] :: splitOnChar sep rest
    else
      match splitOnChar sep rest with
      | [] => [[c]]
      | g :: gs => (c :: g) :: gs

/-- The expression `'.' + selectedFile.name.split('.').pop()?.toLowerCase()`: the dot
followed by the lower-cased text after the last dot of the file name (the
whole name when it contains no dot, as JS `split('.').pop()` returns it;
lower-casing is the ASCII one, which covers every supported extension). -/
def fileExt (name : String) : String :=
  "." ++ (((splitOnChar '.' name.toList).getLastD []).map Char.toLower).asString

/-- Outcome of the synchronous `handleFileChange` validation, with the
error text the source puts into the error banner. -/
inductive UploadCheck where
  | accepted
  | unsupportedFileType (msg : String)
  | fileTooLarge (msg : String)
deriving DecidableEq

/-- Handler `handleFileChange`: extension check against the supported set, then
the 100MB size check, both before any request leaves the browser (so
before any Job can be created). -/
def handleFileChange (name : String) (size : Nat) : UploadCheck :=
  if fileExt name ∉ supportedExtensions then
    .unsupportedFileType
      ("Unsupported file type: " ++ fileExt name ++
       ". Supported types: Images (.png, .jpg), PDF, Word, PowerPoint, Excel, CSV, HTML, Markdown, Code files")
  else if size > 100 * 1024 * 1024 then
    .fileTooLarge "File size must not exceed 100MB"
  else
    .accepted

/-! ## Processing steps (`ProjectStatus.tsx`) -/

/-- One entry of `PROCESSING_STEPS`. -/
structure ProcessingStep where
  threshold : Nat
  label : String
  description : String
deriving DecidableEq

/-- The `PROCESSING_STEPS` list of `ProjectStatus.tsx`. -/
def PROCESSING_STEPS : List ProcessingStep := [
  ⟨0, "Initializing", "Preparing your document for processing"⟩,
  ⟨20, "Ingesting", "Reading and analyzing document content"⟩,
  ⟨40, "Generating Conversations", "AI is creating synthetic dialogues"⟩,
  ⟨70, "Formatting", "Structuring data into your chosen format"⟩,
  ⟨90, "Finalizing", "Quality checks and final touches"⟩,
  ⟨100, "Complete", "Dataset ready for download"⟩]

/-- Function `getCurrentStep`: scans `PROCESSING_STEPS` from the last entry down
and returns the first whose threshold the progress has reached, falling
back to the first entry. -/
def getCurrentStep (progress : Nat) : ProcessingStep :=
  match PROCESSING_STEPS.reverse.find? (fun s => progress ≥ s.threshold) with
  | some s => s
  | none => PROCESSING_STEPS.headD ⟨0, "", ""⟩

/-! ## Content units and the Chunker

The backend pipeline (`src/finetuneme/services/` in the repository layout
the README describes) is not among the sources here; its behaviour is
modelled from the spec. -/

/-- Modelled from the spec: a `ContentUnit` is a text span or an image. -/
inductive CUKind where
  | text
  | image
deriving DecidableEq

/-- Modelled from the spec: a parsed fragment with its kind, serialized
size (the quantity the chunk budget bounds) and source ordinal. -/
structure ContentUnit where
  kind : CUKind
  size : Nat
  ordinal : Nat
deriving DecidableEq

/-- Modelled from the spec (`services/loaders.py` is absent): greedy
chunk accumulation — a unit joins the current chunk while the running
size stays within the budget, otherwise the chunk is closed and the unit
starts the next one; a unit larger than the whole budget still becomes
its own single-unit chunk, never dropped. -/
def chunkAux (budget : Nat) :
    List ContentUnit → List ContentUnit → Nat → List (List ContentUnit)
  | [], [], _ => []
  | [], cur, _ => [cur.reverse]
  | u :: us, cur, sz =>
    match cur with
    | [] => chunkAux budget us [u] u.size
    | _ :: _ =>
      if sz + u.size ≤ budget then chunkAux budget us (u :: cur) (sz + u.size)
      else cur.reverse :: chunkAux budget us [u] u.size

/-- Modelled from the spec: `chunk(units)` under a configured budget. -/
def chunk (units : List ContentUnit) (budget : Nat) : List (List ContentUnit) :=
  chunkAux budget units [] 0

/-! ## Provider abstraction and vision routing

Modelled from the spec and the README vision note (`services/providers.py`
is absent). -/

/-- A backend model with its vision capability tag. -/
structure ModelInfo where
  name : String
  vision : Bool
deriving DecidableEq

/-- Modelled from the spec: a backend exposes a catalog of
capability-tagged models. -/
structure Backend where
  models : List ModelInfo
deriving DecidableEq

/-- The backend's vision-capable subset. -/
def visionModels (b : Backend) : List ModelInfo :=
  b.models.filter (fun m => m.vision)

/-- Errors of the generation call, as named in the spec taxonomy. -/
inductive GenError where
  | visionUnsupported
  | providerAuthError
  | providerRateLimited
  | providerNetworkError
  | providerModelUnavailable
deriving DecidableEq

/-- Whether a chunk contains at least one image unit. -/
def chunkHasImage (c : List ContentUnit) : Bool :=
  c.any (fun u => u.kind = CUKind.image)

/-- Modelled from the spec: vision routing.  A chunk without images uses
the caller's selected model.  A chunk with an image keeps the selected
model only when it is itself vision-capable on this backend; otherwise it
is overridden by the backend's first vision-capable model, and when the
backend has none the call fails with `VisionUnsupported`. -/
def resolveModel (b : Backend) (selected : String) (hasImage : Bool) :
    Except GenError String :=
  if hasImage then
    match visionModels b with
    | [] => .error .visionUnsupported
    | v :: _ =>
      if (visionModels b).any (fun m => m.name = selected) then .ok selected
      else .ok v.name
  else .ok selected

/-- Modelled from the spec: the generation call reports the model actually
used back to the orchestrator for auditability. -/
structure GenCallResult where
  effectiveModel : String
deriving DecidableEq

/-- Modelled from the spec: `generate(chunk, role_prompt, model)` with the
vision-routing override applied; the orchestrator is told which model the
call actually used. -/
def generateCall (b : Backend) (c : List ContentUnit) (selected : String) :
    Except GenError GenCallResult :=
  match resolveModel b selected (chunkHasImage c) with
  | .ok m => .ok ⟨m⟩
  | .error e => .error e

/-! ## Loader dispatch for legacy binary formats -/

/-- Loader failures named in the spec taxonomy. -/
inductive LoadError where
  | unsupportedFileType
  | corruptedDocument
deriving DecidableEq

/-- Modelled from the spec and ROADMAP (`services/loaders.py` is absent):
the Loader Engine dispatches by extension and explicitly rejects the
pre-XML Office binary formats `.doc` and `.ppt` with `UnsupportedFileType`
instead of attempting to parse them; the other extractors are abstracted
as a successful parse. -/
def loadFile (ext : String) : Except LoadError Unit :=
  if ext = ".doc" ∨ ext = ".ppt" then .error .unsupportedFileType
  else .ok ()

/-! ## Job lifecycle and the orchestrator's progress writes

Modelled from the spec (the FastAPI orchestrator is absent from the
sources; `ProjectData` in `ProjectStatus.tsx` declares the snapshot
shape). -/

/-- The three job states of `ProjectData.status`. -/
inductive JobStatus where
  | processing
  | completed
  | failed
deriving DecidableEq

/-- One job snapshot as polled by the client: status plus progress. -/
structure Snapshot where
  status : JobStatus
  progress : Nat
deriving DecidableEq

/-- The transition the claim allows between two consecutive observed
snapshots: progress never decreases, and the status either stays put or
moves from `processing` to a terminal state (so never backward and never
`completed` to `failed`). -/
def okStep (a b : Snapshot) : Prop :=
  a.progress ≤ b.progress ∧
  (a.status = b.status ∨
    (a.status = .processing ∧ (b.status = .completed ∨ b.status = .failed)))

instance : IsTrans Snapshot okStep :=
  ⟨fun a b c h1 h2 => by
    obtain ⟨hp1, hs1⟩ := h1
    obtain ⟨hp2, hs2⟩ := h2
    refine ⟨le_trans hp1 hp2, ?_⟩
    rcases hs1 with h | ⟨ha, hb⟩
    · rcases hs2 with h2 | ⟨hb2, hc2⟩
      · exact Or.inl (h.trans h2)
      · exact Or.inr ⟨h.trans hb2, hc2⟩
    · rcases hs2 with h2 | ⟨hb2, hc2⟩
      · exact Or.inr ⟨ha, h2 ▸ hb⟩
      · rcases hb with hb | hb <;> simp [hb2] at hb⟩

/-- Modelled from the spec: progress within the Generating stage,
`40 + 30×completed/total` (integer division). -/
def genProgress (completed total : Nat) : Nat :=
  40 + 30 * completed / total

/-- The per-chunk Generating-stage snapshots, in chunk order. -/
def genSnaps (total : Nat) : List Snapshot :=
  (List.range (total + 1)).map (fun k => ⟨.processing, genProgress k total⟩)

/-- Modelled from the spec: the non-terminal progress writes of one
successful run — Initializing 0, Ingesting 20, the Generating snapshots,
Formatting 70, Finalizing 90. -/
def runSnaps (total : Nat) : List Snapshot :=
  [⟨.processing, 0⟩, ⟨.processing, 20⟩] ++ genSnaps total ++
    [⟨.processing, 70⟩, ⟨.processing, 90⟩]

/-- A completed run's full snapshot sequence: the processing writes, then
Complete at 100. -/
def successTrace (total : Nat) : List Snapshot :=
  runSnaps total ++ [⟨.completed, 100⟩]

/-- Progress of the latest snapshot of a trace (0 before any write). -/
def lastProgress (l : List Snapshot) : Nat :=
  match l.getLast? with
  | some s => s.progress
  | none => 0

/-- Modelled from the spec: an unrecoverable error after `k` processing
writes moves the job directly to `failed`, keeping the progress it had. -/
def failTrace (total k : Nat) : List Snapshot :=
  (runSnaps total).take k ++
    [⟨.failed, lastProgress ((runSnaps total).take k)⟩]

/-! ## The Formatter's JSONL schema and its parser

Modelled from the spec (the Formatter is absent from the sources): each
`GenerationPair` is serialized as one JSON object per line, newline
delimited; the parser reads the artifact back into records.  String
escaping covers the quote, the backslash and the whitespace controls, so
a pair's text survives the line structure. -/

/-- Modelled from the spec: one instruction/response pair produced by a
provider call. -/
structure GenerationPair where
  instruction : String
  response : String
deriving DecidableEq

/-- JSON string escaping for one character. -/
def escChar (c : Char) : List Char :=
  if c = '\"' then ['\\', '\"']
  else if c = '\\' then ['\\', '\\']
  else if c = '\n' then ['\\', 'n']
  else if c = '\r' then ['\\', 'r']
  else if c = '\t' then ['\\', 't']
  else [c]

/-- JSON string escaping of a text. -/
def escapeChars : List Char → List Char
  | [] => []
  | c :: s => escChar c ++ escapeChars s

/-- The inverse table for an escape character. -/
def unescChar (c : Char) : Option Char :=
  if c = '\"' then some '\"'
  else if c = '\\' then some '\\'
  else if c = 'n' then some '\n'
  else if c = 'r' then some '\r'
  else if c = 't' then some '\t'
  else none

/-- Reads a JSON string body up to and including its closing quote,
undoing the escapes; returns the decoded text and the remaining input. -/
def parseStr : List Char → Option (List Char × List Char)
  | [] => none
  | c :: rest =>
    if c = '\"' then some ([], rest)
    else if c = '\\' then
      match rest with
      | [] => none
      | e :: rest2 =>
        match unescChar e with
        | none => none
        | some u =>
          match parseStr rest2 with
          | none => none
          | some (s, r) => some (u :: s, r)
    else
      match parseStr rest with
      | none => none
      | some (s, r) => some (c :: s, r)

/-- The literal opening of a JSONL record, up to the instruction text. -/
def lit1 : List Char := "\x7b\"instruction\": \"".toList

/-- The literal between the instruction text and the response text. -/
def lit2 : List Char := ", \"response\": \"".toList

/-- The literal closing brace of a JSONL record. -/
def lit3 : List Char := "\x7d".toList

/-- One serialized JSONL record. -/
def formatRecordL (p : GenerationPair) : List Char :=
  lit1 ++ escapeChars p.instruction.toList ++ ['\"'] ++ lit2 ++
    escapeChars p.response.toList ++ ['\"'] ++ lit3

/-- Parses one JSONL record off the front of the input. -/
def parseRecord (s : List Char) : Option (GenerationPair × List Char) :=
  match stripL lit1 s with
  | none => none
  | some s1 =>
    match parseStr s1 with
    | none => none
    | some (ins, s2) =>
      match stripL lit2 s2 with
      | none => none
      | some s3 =>
        match parseStr s3 with
        | none => none
        | some (res, s4) =>
          match stripL lit3 s4 with
          | none => none
          | some s5 => some (⟨ins.asString, res.asString⟩, s5)

/-- Modelled from the spec: the JSONL artifact — records joined by a
newline, one object per line. -/
def formatJSONLChars : List GenerationPair → List Char
  | [] => []
  | [p] => formatRecordL p
  | p :: q :: ps => formatRecordL p ++ '\n' :: formatJSONLChars (q :: ps)

/-- The JSONL artifact as a string. -/
def formatJSONL (pairs : List GenerationPair) : String :=
  (formatJSONLChars pairs).asString

/-- Record-by-record parse of a newline-delimited artifact; the fuel
bounds the number of lines (one unit per record read). -/
def parseLinesAux : Nat → List Char → Option (List GenerationPair)
  | _, [] => some []
  | 0, _ :: _ => none
  | fuel + 1, c :: s =>
    match parseRecord (c :: s) with
    | none => none
    | some (p, rest) =>
      match rest with
      | [] => some [p]
      | r :: rest2 =>
        if r = '\n' then
          match parseLinesAux fuel rest2 with
          | none => none
          | some ps => some (p :: ps)
        else none

/-- Parses a JSONL artifact back into its records. -/
def parseJSONL (s : String) : Option (List GenerationPair) :=
  parseLinesAux s.length s.toList

/-- The `FineTuneMeSettings` field name `setAll` reads for each storage
key. -/
def keyName : StorageKey → String
  | .provider => "provider"
  | .apiKey => "apiKey"
  | .groqApiKey => "groqApiKey"
  | .openaiApiKey => "openaiApiKey"
  | .anthropicApiKey => "anthropicApiKey"
  | .model => "model"
  | .role => "role"
  | .format => "format"

/-- Pure field lookup on a non-null JSON value (what `jsGet` returns when
it does not throw). -/
def jlookup (j : Json) (name : String) : Option Json :=
  match j with
  | .jobj fields => ((fields.reverse.find? (fun kv => kv.1 = name)).map (·.2))
  | _ => none

/-- The effect of one `setAll` line on the store, for a value it can read
fields from. -/
def applyField (j : Json) (name : String) (k : StorageKey) (st : Store) :
    Store :=
  match jlookup j name with
  | none => st
  | some v => setKey k (jsToString v) st

/-- The cumulative effect of `setAll` on the store, in source order. -/
def applyAll (j : Json) (st : Store) : Store :=
  applyField j "format" .format
    (applyField j "role" .role
      (applyField j "model" .model
        (applyField j "anthropicApiKey" .anthropicApiKey
          (applyField j "openaiApiKey" .openaiApiKey
            (applyField j "groqApiKey" .groqApiKey
              (applyField j "apiKey" .apiKey
                (applyField j "provider" .provider st)))))))

/-! ## The claims -/

/-! ## Lemmas and claim theorems -/

theorem setKey_fieldVal_ne (k k2 : StorageKey) (v : String) (st : Store)
    (h : k2 ≠ k) : fieldVal (setKey k v st) k2 = fieldVal st k2 := by
  cases hav : st.avail <;> cases k <;> cases k2 <;>
    simp_all [setKey, fieldVal]

theorem setKey_fieldVal_eq (k : StorageKey) (v : String) (st : Store)
    (h : st.avail = true) : fieldVal (setKey k v st) k = some v := by
  cases k <;> simp_all [setKey, fieldVal]

theorem setKey_avail (k : StorageKey) (v : String) (st : Store) :
    (setKey k v st).avail = st.avail := by
  cases hav : st.avail <;> cases k <;> simp_all [setKey]

theorem stripL_append (lit s : List Char) : stripL lit (lit ++ s) = some s := by
  induction lit with
  | nil => rfl
  | cons c lit ih => simp [stripL, ih]

theorem stripL_sound (lit : List Char) : ∀ s rest : List Char,
    stripL lit s = some rest → s = lit ++ rest := by
  induction lit with
  | nil => intro s rest h; simpa [stripL] using h
  | cons c lit ih =>
    intro s rest h
    match s with
    | [] => simp [stripL] at h
    | d :: s =>
      by_cases hcd : c = d
      · subst hcd
        simp only [stripL, if_pos rfl] at h
        simpa using ih s rest h
      · simp [stripL, hcd] at h

theorem firstSplit_sound (pat : List Char) : ∀ s pre post : List Char,
    firstSplit pat s = some (pre, post) → s = pre ++ pat ++ post := by
  intro s
  induction s with
  | nil =>
    intro pre post h
    cases hs : stripL pat [] with
    | none => simp [firstSplit, hs] at h
    | some rest =>
      simp only [firstSplit, hs, Option.some.injEq, Prod.mk.injEq] at h
      obtain ⟨h1, h2⟩ := h
      subst h1; subst h2
      simpa using stripL_sound pat [] rest hs
  | cons c s ih =>
    intro pre post h
    cases hs : stripL pat (c :: s) with
    | some rest =>
      simp only [firstSplit, hs, Option.some.injEq, Prod.mk.injEq] at h
      obtain ⟨h1, h2⟩ := h
      subst h1; subst h2
      simpa using stripL_sound pat (c :: s) rest hs
    | none =>
      simp only [firstSplit, hs] at h
      cases hrec : firstSplit pat s with
      | none => simp [hrec] at h
      | some pp =>
        obtain ⟨pre2, post2⟩ := pp
        simp only [hrec, Option.some.injEq, Prod.mk.injEq] at h
        obtain ⟨h1, h2⟩ := h
        subst h1; subst h2
        simpa using ih pre2 post2 hrec

/-- If the pattern occurs nowhere in `s` (it is not an infix), the first
split fails. -/
theorem firstSplit_none_of_not_infix (pat s : List Char)
    (h : ¬ pat <:+: s) : firstSplit pat s = none := by
  cases hfs : firstSplit pat s with
  | none => rfl
  | some pp =>
    obtain ⟨pre, post⟩ := pp
    exact absurd ⟨pre, post, by
      simpa using (firstSplit_sound pat s pre post hfs).symm⟩ h

theorem data_asString (l : List Char) : (List.asString l).data = l := rfl

theorem jsReplace_of_not_infix (s pat repl : String)
    (h : ¬ pat.toList <:+: s.toList) : jsReplace s pat repl = s := by
  have h2 : firstSplit pat.data s.data = none :=
    firstSplit_none_of_not_infix pat.toList s.toList h
  simp [jsReplace, h2]

theorem jsReplace_spec (s pat repl : String) (pre post : List Char)
    (h : firstSplit pat.toList s.toList = some (pre, post)) :
    s.toList = pre ++ pat.toList ++ post ∧
    (jsReplace s pat repl).toList = pre ++ repl.toList ++ post := by
  refine ⟨firstSplit_sound pat.toList s.toList pre post h, ?_⟩
  have h2 : firstSplit pat.data s.data = some (pre, post) := h
  simp [jsReplace, h2, String.toList, data_asString]

theorem genProgress_mono (total m : Nat) :
    genProgress m total ≤ genProgress (m + 1) total :=
  Nat.add_le_add_left
    (Nat.div_le_div_right (Nat.mul_le_mul_left 30 (Nat.le_succ m))) 40

theorem chain'_genSnaps (total : Nat) : (genSnaps total).Chain' okStep := by
  rw [genSnaps, List.chain'_map]
  rw [show total + 1 = Nat.succ total from rfl, List.chain'_range_succ]
  intro m _
  exact ⟨genProgress_mono total m, Or.inl rfl⟩

theorem genSnaps_head? (total : Nat) :
    (genSnaps total).head? = some ⟨.processing, 40⟩ := by
  simp [genSnaps, List.head?_range, genProgress]

theorem genSnaps_getLast? (total : Nat) (h : 0 < total) :
    (genSnaps total).getLast? = some ⟨.processing, 70⟩ := by
  simp [genSnaps, List.getLast?_map, List.getLast?_range, genProgress,
    Nat.mul_div_cancel _ h]

theorem chain'_runSnaps (total : Nat) (h : 0 < total) :
    (runSnaps total).Chain' okStep := by
  rw [runSnaps, List.chain'_append]
  refine ⟨?_, ?_, ?_⟩
  · rw [List.chain'_append]
    refine ⟨?_, chain'_genSnaps total, ?_⟩
    · exact List.chain'_pair.2 ⟨by norm_num, Or.inl rfl⟩
    · intro x hx y hy
      simp only [List.getLast?_cons_cons, List.getLast?_singleton,
        Option.mem_def, Option.some.injEq] at hx
      rw [genSnaps_head? total] at hy
      simp only [Option.mem_def, Option.some.injEq] at hy
      subst hx; subst hy
      exact ⟨by norm_num, Or.inl rfl⟩
  · exact List.chain'_pair.2 ⟨by norm_num, Or.inl rfl⟩
  · intro x hx y hy
    rw [List.getLast?_append, genSnaps_getLast? total h] at hx
    simp only [Option.or_some, Option.mem_def, Option.some.injEq] at hx
    simp only [List.head?_cons, Option.mem_def, Option.some.injEq] at hy
    subst hx; subst hy
    exact ⟨by norm_num, Or.inl rfl⟩

theorem runSnaps_getLast? (total : Nat) :
    (runSnaps total).getLast? = some ⟨.processing, 90⟩ := by
  have h : runSnaps total =
      ([⟨.processing, 0⟩, ⟨.processing, 20⟩] ++ genSnaps total ++
        [⟨.processing, 70⟩]) ++ [⟨.processing, 90⟩] := by
    simp [runSnaps]
  rw [h, List.getLast?_concat]

theorem mem_runSnaps_status (total : Nat) (s : Snapshot)
    (hs : s ∈ runSnaps total) : s.status = .processing := by
  simp only [runSnaps, genSnaps, List.mem_append, List.mem_cons,
    List.mem_map, List.mem_range, List.not_mem_nil, or_false] at hs
  rcases hs with ((rfl | rfl) | ⟨k, -, rfl⟩) | (rfl | rfl) <;> rfl

theorem chain'_successTrace (total : Nat) (h : 0 < total) :
    (successTrace total).Chain' okStep := by
  rw [successTrace, List.chain'_append]
  refine ⟨chain'_runSnaps total h, List.chain'_singleton _, ?_⟩
  intro x hx y hy
  rw [runSnaps_getLast? total] at hx
  simp only [Option.mem_def, Option.some.injEq] at hx
  simp only [List.head?_cons, Option.mem_def, Option.some.injEq] at hy
  subst hx; subst hy
  exact ⟨by norm_num, Or.inr ⟨rfl, Or.inl rfl⟩⟩

theorem chain'_failTrace (total k : Nat) (h : 0 < total) :
    (failTrace total k).Chain' okStep := by
  rw [failTrace, List.chain'_append]
  refine ⟨(chain'_runSnaps total h).take k, List.chain'_singleton _, ?_⟩
  intro x hx y hy
  simp only [List.head?_cons, Option.mem_def, Option.some.injEq] at hy
  subst hy
  refine ⟨?_, Or.inr ⟨?_, Or.inr rfl⟩⟩
  · simp only [lastProgress, Option.mem_def] at hx ⊢
    rw [hx]
  · exact mem_runSnaps_status total x
      (List.take_subset k (runSnaps total) (List.mem_of_mem_getLast? hx))

theorem asString_toList (s : String) : s.toList.asString = s := rfl

theorem parseStr_quote (rest : List Char) :
    parseStr ('\"' :: rest) = some ([], rest) := by
  rw [parseStr.eq_def]; simp

theorem parseStr_backslash (e : Char) (rest : List Char) :
    parseStr ('\\' :: e :: rest) =
      match unescChar e with
      | none => none
      | some u =>
        match parseStr rest with
        | none => none
        | some (s, r) => some (u :: s, r) := by
  rw [parseStr.eq_def]; simp

theorem parseStr_other (c : Char) (h1 : c ≠ '\"') (h2 : c ≠ '\\')
    (rest : List Char) :
    parseStr (c :: rest) =
      match parseStr rest with
      | none => none
      | some (s, r) => some (c :: s, r) := by
  rw [parseStr.eq_def]; simp [h1, h2]

theorem parseStr_escape : ∀ s rest : List Char,
    parseStr (escapeChars s ++ '\"' :: rest) = some (s, rest) := by
  intro s
  induction s with
  | nil => intro rest; simpa [escapeChars] using parseStr_quote rest
  | cons c s ih =>
    intro rest
    by_cases h1 : c = '\"'
    · subst h1
      rw [show escapeChars ('\"' :: s) ++ '\"' :: rest =
          '\\' :: '\"' :: (escapeChars s ++ '\"' :: rest) by
        simp [escapeChars, escChar]]
      rw [parseStr_backslash]
      simp [unescChar, ih]
    · by_cases h2 : c = '\\'
      · subst h2
        rw [show escapeChars ('\\' :: s) ++ '\"' :: rest =
            '\\' :: '\\' :: (escapeChars s ++ '\"' :: rest) by
          simp [escapeChars, escChar]]
        rw [parseStr_backslash]
        simp [unescChar, ih]
      · by_cases h3 : c = '\n'
        · subst h3
          rw [show escapeChars ('\n' :: s) ++ '\"' :: rest =
              '\\' :: 'n' :: (escapeChars s ++ '\"' :: rest) by
            simp [escapeChars, escChar]]
          rw [parseStr_backslash]
          simp [unescChar, ih]
        · by_cases h4 : c = '\r'
          · subst h4
            rw [show escapeChars ('\r' :: s) ++ '\"' :: rest =
                '\\' :: 'r' :: (escapeChars s ++ '\"' :: rest) by
              simp [escapeChars, escChar]]
            rw [parseStr_backslash]
            simp [unescChar, ih]
          · by_cases h5 : c = '\t'
            · subst h5
              rw [show escapeChars ('\t' :: s) ++ '\"' :: rest =
                  '\\' :: 't' :: (escapeChars s ++ '\"' :: rest) by
                simp [escapeChars, escChar]]
              rw [parseStr_backslash]
              simp [unescChar, ih]
            · rw [show escapeChars (c :: s) ++ '\"' :: rest =
                  c :: (escapeChars s ++ '\"' :: rest) by
                simp [escapeChars, escChar, h1, h2, h3, h4, h5]]
              rw [parseStr_other c h1 h2]
              simp [ih]

theorem parseRecord_format (p : GenerationPair) (rest : List Char) :
    parseRecord (formatRecordL p ++ rest) = some (p, rest) := by
  have h : formatRecordL p ++ rest =
      lit1 ++ (escapeChars p.instruction.toList ++ '\"' ::
        (lit2 ++ (escapeChars p.response.toList ++ '\"' ::
          (lit3 ++ rest)))) := by
    simp [formatRecordL]
  rw [h]
  simp only [parseRecord, stripL_append, parseStr_escape, asString_toList]

theorem formatRecordL_ne_nil (p : GenerationPair) : formatRecordL p ≠ [] := by
  simp [formatRecordL, lit1]

theorem length_formatJSONLChars : ∀ ps : List GenerationPair,
    ps.length ≤ (formatJSONLChars ps).length := by
  intro ps
  induction ps with
  | nil => simp [formatJSONLChars]
  | cons p ps ih =>
    cases ps with
    | nil => simp [formatJSONLChars, formatRecordL, lit1]
    | cons q ps2 =>
      simp only [formatJSONLChars, List.length_append, List.length_cons]
      have hp : 1 ≤ (formatRecordL p).length := by
        simp [formatRecordL, lit1]
      simp only [List.length_cons] at ih
      omega

theorem parseLinesAux_succ (fuel : Nat) (l : List Char) (hl : l ≠ []) :
    parseLinesAux (fuel + 1) l =
      match parseRecord l with
      | none => none
      | some (p, rest) =>
        match rest with
        | [] => some [p]
        | r :: rest2 =>
          if r = '\n' then
            match parseLinesAux fuel rest2 with
            | none => none
            | some ps => some (p :: ps)
          else none := by
  cases l with
  | nil => exact absurd rfl hl
  | cons c s => rw [parseLinesAux.eq_def]

theorem parseLinesAux_format : ∀ (ps : List GenerationPair) (fuel : Nat),
    ps.length ≤ fuel →
    parseLinesAux fuel (formatJSONLChars ps) = some ps := by
  intro ps
  induction ps with
  | nil => intro fuel _; cases fuel <;> rfl
  | cons p ps ih =>
    intro fuel hfuel
    obtain ⟨f, rfl⟩ : ∃ f, fuel = f + 1 := by
      cases fuel with
      | zero => simp at hfuel
      | succ f => exact ⟨f, rfl⟩
    cases ps with
    | nil =>
      have hrec : parseRecord (formatRecordL p) = some (p, []) := by
        have h2 := parseRecord_format p []
        rwa [List.append_nil] at h2
      rw [show formatJSONLChars [p] = formatRecordL p from rfl,
        parseLinesAux_succ f _ (formatRecordL_ne_nil p)]
      simp only [hrec]
    | cons q ps2 =>
      have hform : formatJSONLChars (p :: q :: ps2) =
          formatRecordL p ++ '\n' :: formatJSONLChars (q :: ps2) := rfl
      have hne : formatRecordL p ++ '\n' :: formatJSONLChars (q :: ps2) ≠ [] := by
        intro h2
        exact formatRecordL_ne_nil p (List.append_eq_nil.mp h2).1
      have hih : parseLinesAux f (formatJSONLChars (q :: ps2)) =
          some (q :: ps2) := by
        refine ih f ?_
        simp only [List.length_cons] at hfuel ⊢
        omega
      rw [hform, parseLinesAux_succ f _ hne, parseRecord_format p]
      simp [hih]

theorem jsGet_ne_null (j : Json) (name : String) (h : j ≠ .jnull) :
    jsGet j name = .ok (jlookup j name) := by
  cases j <;> simp_all [jsGet, jlookup]

theorem setField_ok (j : Json) (name : String) (k : StorageKey) (st : Store)
    (h : j ≠ .jnull) :
    setField j name k st = .ok (applyField j name k st) := by
  rw [setField, jsGet_ne_null j name h, applyField]
  cases jlookup j name <;> rfl

theorem setAllJson_ok (j : Json) (st : Store) (h : j ≠ .jnull) :
    setAllJson j st = .ok (applyAll j st) := by
  simp [setAllJson, applyAll, setField_ok _ _ _ _ h, Bind.bind, Except.bind,
    Pure.pure, Except.pure]

theorem setAllJson_null (st : Store) :
    setAllJson .jnull st = .error () := rfl

theorem importSettings_none (st : Store) :
    importSettings none st = (false, st) := rfl

theorem importSettings_null (st : Store) :
    importSettings (some .jnull) st = (false, st) := rfl

theorem importSettings_ok (j : Json) (st : Store) (h : j ≠ .jnull) :
    importSettings (some j) st = (true, applyAll j st) := by
  simp [importSettings, setAllJson_ok j st h]

theorem setKey_fieldVal_self (k : StorageKey) (v : String) (st : Store) :
    fieldVal (setKey k v st) k =
      if st.avail then some v else fieldVal st k := by
  cases hav : st.avail <;> cases k <;> simp [setKey, fieldVal, hav]

theorem applyField_fieldVal_ne (j : Json) (name : String) (k k2 : StorageKey)
    (h : k2 ≠ k) (st : Store) :
    fieldVal (applyField j name k st) k2 = fieldVal st k2 := by
  rw [applyField]
  cases jlookup j name
  · rfl
  · exact setKey_fieldVal_ne k k2 _ st h

theorem applyField_avail (j : Json) (name : String) (k : StorageKey)
    (st : Store) : (applyField j name k st).avail = st.avail := by
  rw [applyField]
  cases jlookup j name
  · rfl
  · exact setKey_avail k _ st

theorem applyField_fieldVal_self (j : Json) (name : String) (k : StorageKey)
    (st : Store) :
    fieldVal (applyField j name k st) k =
      (match jlookup j name with
      | none => fieldVal st k
      | some v => if st.avail then some (jsToString v) else fieldVal st k) := by
  rw [applyField]
  cases jlookup j name
  · rfl
  · exact setKey_fieldVal_self k _ st

theorem fieldVal_applyAll (j : Json) (st : Store) (k : StorageKey) :
    fieldVal (applyAll j st) k =
      (match jlookup j (keyName k) with
      | none => fieldVal st k
      | some v => if st.avail then some (jsToString v) else fieldVal st k) := by
  cases k with
  | provider =>
    simp only [applyAll, keyName,
      applyField_fieldVal_ne j "format" StorageKey.format StorageKey.provider (by decide),
      applyField_fieldVal_ne j "role" StorageKey.role StorageKey.provider (by decide),
      applyField_fieldVal_ne j "model" StorageKey.model StorageKey.provider (by decide),
      applyField_fieldVal_ne j "anthropicApiKey" StorageKey.anthropicApiKey StorageKey.provider (by decide),
      applyField_fieldVal_ne j "openaiApiKey" StorageKey.openaiApiKey StorageKey.provider (by decide),
      applyField_fieldVal_ne j "groqApiKey" StorageKey.groqApiKey StorageKey.provider (by decide),
      applyField_fieldVal_ne j "apiKey" StorageKey.apiKey StorageKey.provider (by decide),
      applyField_fieldVal_self j "provider" StorageKey.provider,
      applyField_avail]
  | apiKey =>
    simp only [applyAll, keyName,
      applyField_fieldVal_ne j "format" StorageKey.format StorageKey.apiKey (by decide),
      applyField_fieldVal_ne j "role" StorageKey.role StorageKey.apiKey (by decide),
      applyField_fieldVal_ne j "model" StorageKey.model StorageKey.apiKey (by decide),
      applyField_fieldVal_ne j "anthropicApiKey" StorageKey.anthropicApiKey StorageKey.apiKey (by decide),
      applyField_fieldVal_ne j "openaiApiKey" StorageKey.openaiApiKey StorageKey.apiKey (by decide),
      applyField_fieldVal_ne j "groqApiKey" StorageKey.groqApiKey StorageKey.apiKey (by decide),
      applyField_fieldVal_self j "apiKey" StorageKey.apiKey,
      applyField_fieldVal_ne j "provider" StorageKey.provider StorageKey.apiKey (by decide),
      applyField_avail]
  | groqApiKey =>
    simp only [applyAll, keyName,
      applyField_fieldVal_ne j "format" StorageKey.format StorageKey.groqApiKey (by decide),
      applyField_fieldVal_ne j "role" StorageKey.role StorageKey.groqApiKey (by decide),
      applyField_fieldVal_ne j "model" StorageKey.model StorageKey.groqApiKey (by decide),
      applyField_fieldVal_ne j "anthropicApiKey" StorageKey.anthropicApiKey StorageKey.groqApiKey (by decide),
      applyField_fieldVal_ne j "openaiApiKey" StorageKey.openaiApiKey StorageKey.groqApiKey (by decide),
      applyField_fieldVal_self j "groqApiKey" StorageKey.groqApiKey,
      applyField_fieldVal_ne j "apiKey" StorageKey.apiKey StorageKey.groqApiKey (by decide),
      applyField_fieldVal_ne j "provider" StorageKey.provider StorageKey.groqApiKey (by decide),
      applyField_avail]
  | openaiApiKey =>
    simp only [applyAll, keyName,
      applyField_fieldVal_ne j "format" StorageKey.format StorageKey.openaiApiKey (by decide),
      applyField_fieldVal_ne j "role" StorageKey.role StorageKey.openaiApiKey (by decide),
      applyField_fieldVal_ne j "model" StorageKey.model StorageKey.openaiApiKey (by decide),
      applyField_fieldVal_ne j "anthropicApiKey" StorageKey.anthropicApiKey StorageKey.openaiApiKey (by decide),
      applyField_fieldVal_self j "openaiApiKey" StorageKey.openaiApiKey,
      applyField_fieldVal_ne j "groqApiKey" StorageKey.groqApiKey StorageKey.openaiApiKey (by decide),
      applyField_fieldVal_ne j "apiKey" StorageKey.apiKey StorageKey.openaiApiKey (by decide),
      applyField_fieldVal_ne j "provider" StorageKey.provider StorageKey.openaiApiKey (by decide),
      applyField_avail]
  | anthropicApiKey =>
    simp only [applyAll, keyName,
      applyField_fieldVal_ne j "format" StorageKey.format StorageKey.anthropicApiKey (by decide),
      applyField_fieldVal_ne j "role" StorageKey.role StorageKey.anthropicApiKey (by decide),
      applyField_fieldVal_ne j "model" StorageKey.model StorageKey.anthropicApiKey (by decide),
      applyField_fieldVal_self j "anthropicApiKey" StorageKey.anthropicApiKey,
      applyField_fieldVal_ne j "openaiApiKey" StorageKey.openaiApiKey StorageKey.anthropicApiKey (by decide),
      applyField_fieldVal_ne j "groqApiKey" StorageKey.groqApiKey StorageKey.anthropicApiKey (by decide),
      applyField_fieldVal_ne j "apiKey" StorageKey.apiKey StorageKey.anthropicApiKey (by decide),
      applyField_fieldVal_ne j "provider" StorageKey.provider StorageKey.anthropicApiKey (by decide),
      applyField_avail]
  | model =>
    simp only [applyAll, keyName,
      applyField_fieldVal_ne j "format" StorageKey.format StorageKey.model (by decide),
      applyField_fieldVal_ne j "role" StorageKey.role StorageKey.model (by decide),
      applyField_fieldVal_self j "model" StorageKey.model,
      applyField_fieldVal_ne j "anthropicApiKey" StorageKey.anthropicApiKey StorageKey.model (by decide),
      applyField_fieldVal_ne j "openaiApiKey" StorageKey.openaiApiKey StorageKey.model (by decide),
      applyField_fieldVal_ne j "groqApiKey" StorageKey.groqApiKey StorageKey.model (by decide),
      applyField_fieldVal_ne j "apiKey" StorageKey.apiKey StorageKey.model (by decide),
      applyField_fieldVal_ne j "provider" StorageKey.provider StorageKey.model (by decide),
      applyField_avail]
  | role =>
    simp only [applyAll, keyName,
      applyField_fieldVal_ne j "format" StorageKey.format StorageKey.role (by decide),
      applyField_fieldVal_self j "role" StorageKey.role,
      applyField_fieldVal_ne j "model" StorageKey.model StorageKey.role (by decide),
      applyField_fieldVal_ne j "anthropicApiKey" StorageKey.anthropicApiKey StorageKey.role (by decide),
      applyField_fieldVal_ne j "openaiApiKey" StorageKey.openaiApiKey StorageKey.role (by decide),
      applyField_fieldVal_ne j "groqApiKey" StorageKey.groqApiKey StorageKey.role (by decide),
      applyField_fieldVal_ne j "apiKey" StorageKey.apiKey StorageKey.role (by decide),
      applyField_fieldVal_ne j "provider" StorageKey.provider StorageKey.role (by decide),
      applyField_avail]
  | format =>
    simp only [applyAll, keyName,
      applyField_fieldVal_self j "format" StorageKey.format,
      applyField_fieldVal_ne j "role" StorageKey.role StorageKey.format (by decide),
      applyField_fieldVal_ne j "model" StorageKey.model StorageKey.format (by decide),
      applyField_fieldVal_ne j "anthropicApiKey" StorageKey.anthropicApiKey StorageKey.format (by decide),
      applyField_fieldVal_ne j "openaiApiKey" StorageKey.openaiApiKey StorageKey.format (by decide),
      applyField_fieldVal_ne j "groqApiKey" StorageKey.groqApiKey StorageKey.format (by decide),
      applyField_fieldVal_ne j "apiKey" StorageKey.apiKey StorageKey.format (by decide),
      applyField_fieldVal_ne j "provider" StorageKey.provider StorageKey.format (by decide),
      applyField_avail]

theorem parseJSONL_format (pairs : List GenerationPair) :
    parseJSONL (formatJSONL pairs) = some pairs := by
  have hlen : pairs.length ≤ (formatJSONL pairs).length := by
    have h1 : (formatJSONL pairs).length = (formatJSONLChars pairs).length := rfl
    rw [h1]; exact length_formatJSONLChars pairs
  have h2 : (formatJSONL pairs).toList = formatJSONLChars pairs := rfl
  rw [parseJSONL, h2]
  exact parseLinesAux_format pairs (formatJSONL pairs).length hlen

theorem getKey_setKey_self (k : StorageKey) (v : String) (st : Store)
    (h : st.avail = true) : getKey (setKey k v st) k = v := by
  rw [getKey, setKey_avail, h, if_pos rfl, setKey_fieldVal_eq k v st h]
  rfl

/-- C1: for every chunk containing at least one image unit, the effective
model of the generate call lies in the backend's vision-capable subset
regardless of the selected model; a backend without a vision-capable model
fails the call with `VisionUnsupported`; the model actually used is the
one `generateCall` reports back. -/
theorem c1_vision_routing (b : Backend) (c : List ContentUnit)
    (selected : String) (h : chunkHasImage c = true) :
    (visionModels b = [] →
      generateCall b c selected = .error .visionUnsupported) ∧
    (∀ r, generateCall b c selected = .ok r →
      r.effectiveModel ∈ (visionModels b).map (fun m => m.name)) := by
  constructor
  · intro hv
    simp [generateCall, resolveModel, h, hv]
  · intro r hr
    simp only [generateCall, resolveModel, h, if_true] at hr
    cases hv : visionModels b with
    | nil =>
      simp only [hv] at hr
      exact Except.noConfusion hr
    | cons v vs =>
      simp only [hv] at hr
      by_cases ha : ((v :: vs).any (fun m => m.name = selected)) = true
      · rw [if_pos ha] at hr
        obtain ⟨m, hm, hd⟩ := List.any_eq_true.mp ha
        have hname : m.name = selected := of_decide_eq_true hd
        have hr2 : (Except.ok ⟨selected⟩ : Except GenError GenCallResult) =
            Except.ok r := hr
        injection hr2 with hr3
        subst hr3
        exact List.mem_map.2 ⟨m, hm, hname⟩
      · rw [if_neg ha] at hr
        have hr2 : (Except.ok ⟨v.name⟩ : Except GenError GenCallResult) =
            Except.ok r := hr
        injection hr2 with hr3
        subst hr3
        exact List.mem_map.2 ⟨v, List.mem_cons_self v vs, rfl⟩

/-- Witness for C1 at the README's Groq example: an image chunk with a
selected text-only model on a backend whose vision subset is Llama 4
Scout. -/
theorem c1_vision_routing_witness :
    chunkHasImage [⟨CUKind.image, 5, 0⟩] = true ∧
    ((visionModels ⟨[⟨"meta-llama/llama-4-scout-17b-16e-instruct", true⟩,
        ⟨"llama-3.3-70b-versatile", false⟩]⟩ = [] →
      generateCall ⟨[⟨"meta-llama/llama-4-scout-17b-16e-instruct", true⟩,
        ⟨"llama-3.3-70b-versatile", false⟩]⟩ [⟨CUKind.image, 5, 0⟩]
        "llama-3.3-70b-versatile" = .error .visionUnsupported) ∧
    (∀ r, generateCall ⟨[⟨"meta-llama/llama-4-scout-17b-16e-instruct", true⟩,
        ⟨"llama-3.3-70b-versatile", false⟩]⟩ [⟨CUKind.image, 5, 0⟩]
        "llama-3.3-70b-versatile" = .ok r →
      r.effectiveModel ∈ (visionModels ⟨[⟨"meta-llama/llama-4-scout-17b-16e-instruct", true⟩,
        ⟨"llama-3.3-70b-versatile", false⟩]⟩).map (fun m => m.name))) ∧
    generateCall ⟨[⟨"meta-llama/llama-4-scout-17b-16e-instruct", true⟩,
        ⟨"llama-3.3-70b-versatile", false⟩]⟩ [⟨CUKind.image, 5, 0⟩]
        "llama-3.3-70b-versatile" =
      .ok ⟨"meta-llama/llama-4-scout-17b-16e-instruct"⟩ :=
  ⟨by decide, c1_vision_routing _ _ "llama-3.3-70b-versatile" (by decide),
    rfl⟩

/-- C2: over every sequence of snapshots a client can observe of a job
run — any subsequence of the success trace or of a fail-at-any-point
trace — progress is non-decreasing and the status only ever moves from
processing to completed or from processing to failed, never backward and
never out of a terminal state. -/
theorem c2_job_monotone (total : Nat) (h : 0 < total) :
    (∀ obs : List Snapshot,
      List.Sublist obs (successTrace total) → obs.Chain' okStep) ∧
    (∀ k : Nat, ∀ obs : List Snapshot,
      List.Sublist obs (failTrace total k) → obs.Chain' okStep) := by
  constructor
  · intro obs hsub
    exact (chain'_successTrace total h).sublist hsub
  · intro k obs hsub
    exact (chain'_failTrace total k h).sublist hsub

/-- Witness for C2 on a two-chunk job, observing the full success trace
and a trace failing after three writes. -/
theorem c2_job_monotone_witness :
    0 < 2 ∧ (successTrace 2).Chain' okStep ∧ (failTrace 2 3).Chain' okStep :=
  ⟨by decide,
    (c2_job_monotone 2 (by decide)).1 _ (List.Sublist.refl _),
    (c2_job_monotone 2 (by decide)).2 3 _ (List.Sublist.refl _)⟩

/-- C3 counterexample: a `.doc` upload is not rejected at submission —
`.doc` is in `SUPPORTED_FILE_TYPES` and `handleFileChange` accepts the
file, so no `UnsupportedFileType` error is raised before the job request. -/
theorem c3_doc_counterexample :
    ".doc" ∈ supportedExtensions ∧
    handleFileChange "report.doc" 1000 = UploadCheck.accepted := by
  constructor
  · decide
  · decide

/-- C3 (amended): `.doc` belongs to the accepted extension set of the
upload form, so a `.doc` file under the size limit passes submission; the
rejection of legacy pre-XML Office binaries happens in the Loader Engine
during processing, not before the Job is created. -/
theorem c3_doc_amended :
    ".doc" ∈ supportedExtensions ∧
    (∀ size : Nat, size ≤ 100 * 1024 * 1024 →
      handleFileChange "report.doc" size = UploadCheck.accepted) ∧
    loadFile ".doc" = .error .unsupportedFileType := by
  refine ⟨by decide, ?_, rfl⟩
  intro size hs
  rw [handleFileChange, if_neg (by decide), if_neg (by omega)]

/-- Witness for C3 (amended) at a kilobyte-sized `.doc` file. -/
theorem c3_doc_amended_witness :
    1000 ≤ 100 * 1024 * 1024 ∧
    handleFileChange "report.doc" 1000 = UploadCheck.accepted :=
  ⟨by decide, c3_doc_amended.2.1 1000 (by decide)⟩

/-- C4: the stage thresholds are fixed at Initializing 0, Ingesting 20,
Generating 40, Formatting 70, Finalizing 90, Complete 100; within the
Generating stage progress is `40 + 30×completed/total`, and while chunks
remain it stays inside the Generating band of the step display. -/
theorem c4_stage_progress :
    PROCESSING_STEPS.map (fun s => s.threshold) = [0, 20, 40, 70, 90, 100] ∧
    PROCESSING_STEPS.map (fun s => s.label) =
      ["Initializing", "Ingesting", "Generating Conversations",
        "Formatting", "Finalizing", "Complete"] ∧
    (∀ completed total : Nat,
      genProgress completed total = 40 + 30 * completed / total) ∧
    (∀ completed total : Nat, 0 < total → completed < total →
      40 ≤ genProgress completed total ∧ genProgress completed total < 70 ∧
      getCurrentStep (genProgress completed total) =
        ⟨40, "Generating Conversations",
          "AI is creating synthetic dialogues"⟩) := by
  refine ⟨by decide, by decide, fun _ _ => rfl, ?_⟩
  intro completed total ht hc
  have hgp : genProgress completed total = 40 + 30 * completed / total := rfl
  have hdiv : 30 * completed / total < 30 :=
    (Nat.div_lt_iff_lt_mul ht).2 (by omega)
  have h40 : 40 ≤ genProgress completed total := Nat.le_add_right 40 _
  have h70 : genProgress completed total < 70 := by omega
  refine ⟨h40, h70, ?_⟩
  rw [getCurrentStep]
  rw [show PROCESSING_STEPS.reverse = [
    ⟨100, "Complete", "Dataset ready for download"⟩,
    ⟨90, "Finalizing", "Quality checks and final touches"⟩,
    ⟨70, "Formatting", "Structuring data into your chosen format"⟩,
    ⟨40, "Generating Conversations", "AI is creating synthetic dialogues"⟩,
    ⟨20, "Ingesting", "Reading and analyzing document content"⟩,
    ⟨0, "Initializing", "Preparing your document for processing"⟩] from rfl]
  rw [List.find?_cons_of_neg _ (by simp; omega),
    List.find?_cons_of_neg _ (by simp; omega),
    List.find?_cons_of_neg _ (by simp; omega),
    List.find?_cons_of_pos _ (by simp; omega)]

/-- Witness for C4 after one of three chunks: progress 50 sits in the
Generating band. -/
theorem c4_stage_progress_witness :
    0 < 3 ∧ 1 < 3 ∧
    getCurrentStep (genProgress 1 3) =
      ⟨40, "Generating Conversations", "AI is creating synthetic dialogues"⟩ :=
  ⟨by decide, by decide, (c4_stage_progress.2.2.2 1 3 (by decide) (by decide)).2.2⟩

/-- C5: chunking is a pure, deterministic function of the input unit
sequence and the configured size budget — two runs on identical inputs
produce identical chunk boundaries. -/
theorem c5_chunker_deterministic (us1 us2 : List ContentUnit) (b1 b2 : Nat)
    (h1 : us1 = us2) (h2 : b1 = b2) : chunk us1 b1 = chunk us2 b2 := by
  subst h1; subst h2; rfl

/-- Witness for C5 on a three-unit sequence and budget 10. -/
theorem c5_chunker_deterministic_witness :
    ([⟨CUKind.text, 6, 0⟩, ⟨CUKind.image, 5, 1⟩, ⟨CUKind.text, 2, 2⟩]
        : List ContentUnit) =
      [⟨CUKind.text, 6, 0⟩, ⟨CUKind.image, 5, 1⟩, ⟨CUKind.text, 2, 2⟩] ∧
    (10 : Nat) = 10 ∧
    chunk [⟨CUKind.text, 6, 0⟩, ⟨CUKind.image, 5, 1⟩, ⟨CUKind.text, 2, 2⟩] 10 =
      chunk [⟨CUKind.text, 6, 0⟩, ⟨CUKind.image, 5, 1⟩, ⟨CUKind.text, 2, 2⟩] 10 :=
  ⟨rfl, rfl, c5_chunker_deterministic _ _ _ _ rfl rfl⟩

/-- C6: for an upload whose extension is accepted, a size above the 100MB
limit (in particular 100MB plus one byte) is rejected with the
`FileTooLarge` message, and a size of at most 100MB passes the check; the
check runs in `handleFileChange`, before any request that could create a
Job. -/
theorem c6_size_limit (name : String) (size : Nat)
    (hext : fileExt name ∈ supportedExtensions) :
    (size > 100 * 1024 * 1024 →
      handleFileChange name size =
        UploadCheck.fileTooLarge "File size must not exceed 100MB") ∧
    (size ≤ 100 * 1024 * 1024 →
      handleFileChange name size = UploadCheck.accepted) := by
  constructor <;> intro hs <;>
    rw [handleFileChange, if_neg (not_not_intro hext)]
  · rw [if_pos hs]
  · rw [if_neg (by omega)]

/-- Witness for C6 at `a.pdf`, one byte over and exactly at the limit. -/
theorem c6_size_limit_witness :
    fileExt "a.pdf" ∈ supportedExtensions ∧
    handleFileChange "a.pdf" (100 * 1024 * 1024 + 1) =
      UploadCheck.fileTooLarge "File size must not exceed 100MB" ∧
    handleFileChange "a.pdf" (100 * 1024 * 1024) = UploadCheck.accepted :=
  ⟨by decide,
    (c6_size_limit "a.pdf" (100 * 1024 * 1024 + 1) (by decide)).1 (by omega),
    (c6_size_limit "a.pdf" (100 * 1024 * 1024) (by decide)).2 (by omega)⟩

/-- C7: formatting any list of generation pairs to JSONL and re-parsing
the artifact yields exactly the original records — the same number of
records with the same instruction/response texts. -/
theorem c7_jsonl_roundtrip (pairs : List GenerationPair) :
    parseJSONL (formatJSONL pairs) = some pairs :=
  parseJSONL_format pairs

theorem modelMigration_eq (st : Store) :
    modelMigration st =
      (if jsReplace (getKey st .model) deprecatedModel successorModel =
          getKey st .model
        then st
        else setKey .model
          (jsReplace (getKey st .model) deprecatedModel successorModel) st,
        jsReplace (getKey st .model) deprecatedModel successorModel) := by
  by_cases hsv : getKey st .model = ""
  · have hrep : jsReplace "" deprecatedModel successorModel = "" := by decide
    simp [modelMigration, hsv, hrep]
  · by_cases hch : jsReplace (getKey st .model) deprecatedModel successorModel =
        getKey st .model
    · simp [modelMigration, hsv, hch]
    · simp [modelMigration, hsv, hch]

/-- C8: on settings load, the saved model string has the first occurrence
of `llama-3.1-70b-versatile` replaced by `llama-3.3-70b-versatile`; the
migrated name becomes the model state and the persisted `MODEL` entry,
every other storage key is untouched, and a model string without the
deprecated name is left unchanged. -/
theorem c8_model_migration (st : Store) (h : st.avail = true) :
    (modelMigration st).2 =
      jsReplace (getKey st .model) deprecatedModel successorModel ∧
    getKey (modelMigration st).1 .model =
      jsReplace (getKey st .model) deprecatedModel successorModel ∧
    (∀ k : StorageKey, k ≠ .model →
      fieldVal (modelMigration st).1 k = fieldVal st k) ∧
    (∀ s : String, ¬ List.IsInfix deprecatedModel.toList s.toList →
      jsReplace s deprecatedModel successorModel = s) ∧
    (∀ (s : String) (pre post : List Char),
      firstSplit deprecatedModel.toList s.toList = some (pre, post) →
      s.toList = pre ++ deprecatedModel.toList ++ post ∧
      (jsReplace s deprecatedModel successorModel).toList =
        pre ++ successorModel.toList ++ post) := by
  refine ⟨?_, ?_, ?_,
    fun s hs => jsReplace_of_not_infix s _ _ hs,
    fun s pre post hs => jsReplace_spec s _ _ pre post hs⟩
  · rw [modelMigration_eq]
  · rw [modelMigration_eq]
    by_cases hch : jsReplace (getKey st .model) deprecatedModel successorModel =
        getKey st .model
    · rw [if_pos hch]
      exact hch.symm
    · rw [if_neg hch]
      exact getKey_setKey_self .model _ st h
  · intro k hk
    rw [modelMigration_eq]
    by_cases hch : jsReplace (getKey st .model) deprecatedModel successorModel =
        getKey st .model
    · rw [if_pos hch]
    · rw [if_neg hch]
      exact setKey_fieldVal_ne .model k _ st hk

/-- Witness for C8: a store holding the deprecated model name, migrated
to its successor with the provider key untouched. -/
theorem c8_model_migration_witness :
    (Store.mk true (some "groq") none none none none
      (some "llama-3.1-70b-versatile") (some "teacher")
      (some "sharegpt")).avail = true ∧
    getKey (modelMigration (Store.mk true (some "groq") none none none none
      (some "llama-3.1-70b-versatile") (some "teacher")
      (some "sharegpt"))).1 StorageKey.model = "llama-3.3-70b-versatile" ∧
    fieldVal (modelMigration (Store.mk true (some "groq") none none none none
      (some "llama-3.1-70b-versatile") (some "teacher")
      (some "sharegpt"))).1 StorageKey.provider = some "groq" :=
  ⟨rfl,
    ((c8_model_migration _ rfl).2.1).trans (by decide),
    ((c8_model_migration _ rfl).2.2.1 StorageKey.provider (by decide)).trans rfl⟩

/-- C9 counterexample: the input `null` is valid JSON (`JSON.parse`
succeeds with the value `null`), yet `import` returns `false`, because
`setAll` throws reading a property of `null`; the claim that every valid
JSON input yields `true` is therefore false. -/
theorem c9_null_counterexample :
    importSettings (some Json.jnull)
        ⟨true, some "ollama", none, none, none, none, none, none, none⟩ =
      (false,
        ⟨true, some "ollama", none, none, none, none, none, none, none⟩) := rfl

/-- C9 (amended): `import` returns `false` and leaves every stored
setting unchanged when the input is not valid JSON, and also when the
input parses to JSON `null`; for every other parse result it returns
`true`, leaves every settings field whose name is absent unchanged, and
stores the stringified value of every field that is present. -/
theorem c9_import_atomic (st : Store) (h : st.avail = true) :
    importSettings none st = (false, st) ∧
    importSettings (some .jnull) st = (false, st) ∧
    (∀ j : Json, j ≠ .jnull →
      (importSettings (some j) st).1 = true ∧
      (∀ k : StorageKey,
        (jlookup j (keyName k) = none →
          fieldVal (importSettings (some j) st).2 k = fieldVal st k) ∧
        (∀ v : Json, jlookup j (keyName k) = some v →
          fieldVal (importSettings (some j) st).2 k =
            some (jsToString v)))) := by
  refine ⟨rfl, rfl, ?_⟩
  intro j hj
  have h1 : (importSettings (some j) st).1 = true := by
    rw [importSettings_ok j st hj]
  have h2 : (importSettings (some j) st).2 = applyAll j st := by
    rw [importSettings_ok j st hj]
  refine ⟨h1, ?_⟩
  intro k
  rw [h2, fieldVal_applyAll]
  constructor
  · intro hl
    rw [hl]
  · intro v hl
    rw [hl]
    simp [h]

/-- Witness for C9: importing `{"provider": "groq"}` into an available
store succeeds, stores the provider and leaves the model entry alone. -/
theorem c9_import_atomic_witness :
    (Store.mk true (some "ollama") none none none none (some "m") none
      none).avail = true ∧
    Json.jobj [("provider", Json.jstr "groq")] ≠ Json.jnull ∧
    (importSettings (some (Json.jobj [("provider", Json.jstr "groq")]))
      (Store.mk true (some "ollama") none none none none (some "m") none
        none)).1 = true ∧
    fieldVal (importSettings (some (Json.jobj [("provider", Json.jstr "groq")]))
      (Store.mk true (some "ollama") none none none none (some "m") none
        none)).2 StorageKey.model =
      fieldVal (Store.mk true (some "ollama") none none none none (some "m")
        none none) StorageKey.model ∧
    fieldVal (importSettings (some (Json.jobj [("provider", Json.jstr "groq")]))
      (Store.mk true (some "ollama") none none none none (some "m") none
        none)).2 StorageKey.provider = some "groq" :=
  ⟨rfl, fun hcon => Json.noConfusion hcon,
    ((c9_import_atomic
        (Store.mk true (some "ollama") none none none none (some "m") none none)
        rfl).2.2 (Json.jobj [("provider", Json.jstr "groq")])
        (fun hcon => Json.noConfusion hcon)).1,
    (((c9_import_atomic
        (Store.mk true (some "ollama") none none none none (some "m") none none)
        rfl).2.2 (Json.jobj [("provider", Json.jstr "groq")])
        (fun hcon => Json.noConfusion hcon)).2 StorageKey.model).1 rfl,
    ((((c9_import_atomic
        (Store.mk true (some "ollama") none none none none (some "m") none none)
        rfl).2.2 (Json.jobj [("provider", Json.jstr "groq")])
        (fun hcon => Json.noConfusion hcon)).2 StorageKey.provider).2
      (Json.jstr "groq") rfl).trans (by simp [jsToString])⟩

/-- C10: `clearSecrets` writes the empty string to exactly the four
API-key entries (the legacy key and the Groq, OpenAI and Anthropic keys)
and leaves the provider, model, role and format entries unchanged. -/
theorem c10_clear_secrets (st : Store) (h : st.avail = true) :
    fieldVal (clearSecrets st) .apiKey = some "" ∧
    fieldVal (clearSecrets st) .groqApiKey = some "" ∧
    fieldVal (clearSecrets st) .openaiApiKey = some "" ∧
    fieldVal (clearSecrets st) .anthropicApiKey = some "" ∧
    fieldVal (clearSecrets st) .provider = fieldVal st .provider ∧
    fieldVal (clearSecrets st) .model = fieldVal st .model ∧
    fieldVal (clearSecrets st) .role = fieldVal st .role ∧
    fieldVal (clearSecrets st) .format = fieldVal st .format := by
  obtain ⟨av, p, a, g, o, an, m, r, f⟩ := st
  obtain rfl : av = true := h
  exact ⟨rfl, rfl, rfl, rfl, rfl, rfl, rfl, rfl⟩

/-- Witness for C10 on a fully populated store. -/
theorem c10_clear_secrets_witness :
    (Store.mk true (some "groq") (some "legacy") (some "gsk-1") (some "sk-1")
      (some "sk-ant-1") (some "gpt-4o") (some "teacher")
      (some "alpaca")).avail = true ∧
    fieldVal (clearSecrets (Store.mk true (some "groq") (some "legacy")
      (some "gsk-1") (some "sk-1") (some "sk-ant-1") (some "gpt-4o")
      (some "teacher") (some "alpaca"))) StorageKey.groqApiKey = some "" ∧
    fieldVal (clearSecrets (Store.mk true (some "groq") (some "legacy")
      (some "gsk-1") (some "sk-1") (some "sk-ant-1") (some "gpt-4o")
      (some "teacher") (some "alpaca"))) StorageKey.provider = some "groq" :=
  ⟨rfl, (c10_clear_secrets _ rfl).2.1,
    ((c10_clear_secrets _ rfl).2.2.2.2.1).trans rfl⟩
